import Mathlib

namespace Stagit

/-- The NUL byte, which terminates C strings. -/
def nulChar : Char := Char.ofNat 0

/-- One step of the escaping switch in xmlencode (src/stagit.c lines 133-140):
the five reserved markup characters become named entities, every other byte
passes through unchanged. -/
def escapeChar (c : Char) : List Char :=
  if c = '<' then "&lt;".toList
  else if c = '>' then "&gt;".toList
  else if c = Char.ofNat 39 then "&apos;".toList
  else if c = '&' then "&amp;".toList
  else if c = '"' then "&quot;".toList
  else [c]

/-- Embedding of xmlencode (src/stagit.c lines 127-142): escape the five
reserved characters, stopping at the first NUL byte or after len bytes,
whichever comes first. -/
def xmlencode : List Char → Nat → List Char
  | c :: s, len + 1 => if c = nulChar then [] else escapeChar c ++ xmlencode s len
  | _, _ => []

/-- The prefix of the input that xmlencode processes: the bytes before the
first NUL byte or the first len bytes, whichever ends first. -/
def truncAtNul : List Char → Nat → List Char
  | c :: s, len + 1 => if c = nulChar then [] else c :: truncAtNul s len
  | _, _ => []

/-- Recognize one of the five named entities at the head of the bytes that
follow an ampersand; return the decoded character and the remaining bytes. -/
def entScan : List Char → Option (Char × List Char)
  | 'l' :: 't' :: ';' :: r => some ('<', r)
  | 'g' :: 't' :: ';' :: r => some ('>', r)
  | 'a' :: 'p' :: 'o' :: 's' :: ';' :: r => some (Char.ofNat 39, r)
  | 'a' :: 'm' :: 'p' :: ';' :: r => some ('&', r)
  | 'q' :: 'u' :: 'o' :: 't' :: ';' :: r => some ('"', r)
  | _ => none

/-- Fuel-indexed unescaper for the five named entities; the fuel only serves
to make the recursion structural and is irrelevant once it is at least the
number of decoded characters. -/
def xmldecodeF : Nat → List Char → List Char
  | _, [] => []
  | 0, l => l
  | fuel + 1, c :: rest =>
    if c = '&' then
      match entScan rest with
      | some (d, r) => d :: xmldecodeF fuel r
      | none => c :: xmldecodeF fuel rest
    else c :: xmldecodeF fuel rest

/-- Unescaping of the five named entities, as in the spec round-trip property
for the Text Escaper. -/
def xmldecode (l : List Char) : List Char := xmldecodeF l.length l

/-- The sequence of line numbers printed in the left anchor column of
writeblobhtml while scanning bytes 0 through len-2 (src/stagit.c lines
299-304): after each newline byte the counter n is incremented and the new
value printed. -/
def blobAnchorsAux : List Char → Nat → List Nat
  | [], _ => []
  | c :: rest, n =>
    if c = '\n' then (n + 1) :: blobAnchorsAux rest (n + 1) else blobAnchorsAux rest n

/-- The full sequence of line-number anchors printed by writeblobhtml
(src/stagit.c lines 296-305): anchor 1 when the content is non-empty, then
one further anchor per newline among the first len-1 bytes. -/
def blobAnchors (s : List Char) : List Nat :=
  if s.length = 0 then [] else 1 :: blobAnchorsAux (s.take (s.length - 1)) 1

/-- The line count n returned by writeblobhtml: n is incremented exactly once
per printed anchor, so it equals the number of anchors. -/
def writeblobhtmlCount (s : List Char) : Nat := (blobAnchors s).length

/-- The horizontal ellipsis glyph appended to truncated log summaries. -/
def horizEllipsis : Char := Char.ofNat 8230

/-- C's size_t subtraction by one, as in the expression summarylen - 1. -/
def sizeSub1 (n : Nat) : Nat := if n = 0 then 2 ^ 64 - 1 else n - 1

/-- The text emitted inside a log-row summary link (src/stagit.c lines
460-468): when strlen(summary) exceeds summarylen the summary is escaped
with length bound summarylen - 1 and suffixed with an ellipsis glyph;
otherwise it is escaped in full. -/
def logSummaryText (summarylen : Nat) (summary : List Char) : List Char :=
  if summary.length > summarylen then
    xmlencode summary (sizeSub1 summarylen) ++ [horizEllipsis]
  else
    xmlencode summary summary.length

/-- Embedding of strcmp(3) on byte strings as used by refs_cmp: compare byte
by byte, stop at the first difference or at a NUL byte on both sides; the
result is the difference of the first differing byte values. The end of a
list plays the role of the terminating NUL. -/
def strcmpInt : List Char → List Char → Int
  | [], [] => 0
  | [], b :: _ => 0 - (b.toNat : Int)
  | a :: _, [] => (a.toNat : Int) - 0
  | a :: as, b :: bs =>
    if a = b then (if a = nulChar then 0 else strcmpInt as bs)
    else (a.toNat : Int) - (b.toNat : Int)

/-- Pure lexicographic comparison, the NUL-free core of strcmp. -/
def strcmpP : List Char → List Char → Int
  | [], [] => 0
  | [], b :: _ => 0 - (b.toNat : Int)
  | a :: _, [] => (a.toNat : Int) - 0
  | a :: as, b :: bs =>
    if a = b then strcmpP as bs
    else (a.toNat : Int) - (b.toNat : Int)

/-- The part of a byte string before its first NUL byte. -/
def cTrunc (s : List Char) : List Char := s.takeWhile (fun c => decide (c ≠ nulChar))

/-- The concrete type of a git reference as writerefs inspects it
(src/stagit.c lines 796-807): symbolic, direct (OID), or anything else. -/
inductive RefType where
  | symbolic
  | oid
  | other
deriving DecidableEq, Repr

/-- One collected reference together with the outcomes of the collaborator
calls writerefs makes for it: whether it is a branch or a tag, its concrete
type, whether symbolic resolution succeeds, its own shorthand name (used by
refs_cmp), the shorthand of the resolved reference r (used for the rendered
row), whether git_reference_target is non-NULL, whether peeling succeeds,
whether git_object_id of the peeled object is non-NULL, and whether the
commit snapshot construction succeeds. -/
structure RefObj where
  isBranch : Bool
  isTag : Bool
  rtype : RefType
  resolveOk : Bool
  shorthand : List Char
  rShorthand : List Char
  targetSome : Bool
  peelOk : Bool
  peelIdSome : Bool
  ciOk : Bool
deriving DecidableEq, Repr

/-- Embedding of refs_cmp (src/stagit.c lines 745-760): t1 and t2 are the
results of git_reference_is_branch (1 for a branch, 0 otherwise); when they
differ the result is t1 - t2, otherwise strcmp of the shorthand names. -/
def refs_cmp (r1 r2 : RefObj) : Int :=
  let t1 : Int := if r1.isBranch then 1 else 0
  let t2 : Int := if r2.isBranch then 1 else 0
  if t1 ≠ t2 then t1 - t2 else strcmpInt r1.shorthand r2.shorthand

/-- The sorting relation induced by refs_cmp on the qsort call. -/
def refsLe (r1 r2 : RefObj) : Prop := refs_cmp r1 r2 ≤ 0

instance : DecidableRel refsLe := fun _ _ => Int.decLe _ _

/-- One insertion step of the sort model. -/
def insertRef (r : RefObj) : List RefObj → List RefObj
  | [] => [r]
  | x :: xs => if refs_cmp r x ≤ 0 then r :: x :: xs else x :: insertRef r xs

/-- Model of the qsort call in writerefs (src/stagit.c line 788): sorting the
collected references by refs_cmp. -/
def sortRefs : List RefObj → List RefObj
  | [] => []
  | x :: xs => insertRef x (sortRefs xs)

/-- Rendered output events of writerefs: a table header for class j
(0 = branches, 1 = tags), a table row carrying the displayed shorthand of
the resolved reference, and a table footer for class j. -/
inductive REv where
  | header (j : Nat)
  | row (name : List Char)
  | footer (j : Nat)
deriving DecidableEq, Repr

/-- What the body of the writerefs inner loop does with one reference
(src/stagit.c lines 791-815): skip it (wrong class, or neither symbolic nor
direct), jump to the err label (failed symbolic resolution, NULL target,
failed peel, NULL peeled id), break out of the inner loop (failed commit
snapshot construction), or render a row. -/
inductive StepKind where
  | skipR
  | errR
  | breakR
  | rowR
deriving DecidableEq, Repr

/-- The checks performed after the reference r has been resolved
(src/stagit.c lines 809-815), in source order. -/
def refStepResolved (r : RefObj) : StepKind :=
  if ¬ r.targetSome then .errR
  else if ¬ r.peelOk then .errR
  else if ¬ r.peelIdSome then .errR
  else if ¬ r.ciOk then .breakR
  else .rowR

/-- The fate of one reference in the inner loop for class j
(src/stagit.c lines 791-815). -/
def refStep (j : Nat) (r : RefObj) : StepKind :=
  if ¬ ((r.isBranch ∧ j = 0) ∨ (r.isTag ∧ j = 1)) then .skipR
  else
    match r.rtype with
    | .other => .skipR
    | .symbolic => if ¬ r.resolveOk then .errR else refStepResolved r
    | .oid => refStepResolved r

/-- State produced by the inner loop of writerefs: the rendered events, the
final row count for the class, the final value of the global relpath, and
whether control left through goto err. -/
structure InnerRes where
  events : List REv
  count : Nat
  relpath : List Char
  gotoErr : Bool
deriving DecidableEq, Repr

/-- The inner loop of writerefs over the sorted references for class j
(src/stagit.c lines 791-844): per rendered row the class header is printed
first when the incremented count reaches 1, relpath is set to "" before
the row and to "../" after it. -/
def innerLoop (j : Nat) : List RefObj → Nat → List Char → InnerRes
  | [], count, rp => ⟨[], count, rp, false⟩
  | r :: rest, count, rp =>
    match refStep j r with
    | .skipR => innerLoop j rest count rp
    | .errR => ⟨[], count, rp, true⟩
    | .breakR => ⟨[], count, rp, false⟩
    | .rowR =>
      let hdr : List REv := if count + 1 = 1 then [REv.header j] else []
      let res := innerLoop j rest (count + 1) "../".toList
      ⟨hdr ++ REv.row r.rShorthand :: res.events, res.count, res.relpath, res.gotoErr⟩

/-- Result of one class pass (inner loop plus the conditional table footer of
src/stagit.c lines 845-848, which is skipped when control went to err). -/
structure ClassRes where
  events : List REv
  relpath : List Char
  gotoErr : Bool
deriving DecidableEq, Repr

/-- One iteration of the outer loop of writerefs for class j. -/
def classLoop (j : Nat) (refs : List RefObj) (rp : List Char) : ClassRes :=
  if (innerLoop j refs 0 rp).gotoErr then
    ⟨(innerLoop j refs 0 rp).events, (innerLoop j refs 0 rp).relpath, true⟩
  else
    ⟨(innerLoop j refs 0 rp).events ++
      (if (innerLoop j refs 0 rp).count ≠ 0 then [REv.footer j] else []),
     (innerLoop j refs 0 rp).relpath, false⟩

/-- Embedding of writerefs (src/stagit.c lines 762-859) after the reference
collection step: sort the collected references with refs_cmp, render the
branches class (j = 0) and then the tags class (j = 1); goto err jumps over
all remaining rendering, and the function returns 0 from the err label.
Result: (output events, return value, final value of the global relpath). -/
def writerefs (refs0 : List RefObj) (rp0 : List Char) :
    List REv × Int × List Char :=
  if (classLoop 0 (sortRefs refs0) rp0).gotoErr then
    ((classLoop 0 (sortRefs refs0) rp0).events, 0,
     (classLoop 0 (sortRefs refs0) rp0).relpath)
  else
    ((classLoop 0 (sortRefs refs0) rp0).events ++
       (classLoop 1 (sortRefs refs0) (classLoop 0 (sortRefs refs0) rp0).relpath).events,
     0,
     (classLoop 1 (sortRefs refs0) (classLoop 0 (sortRefs refs0) rp0).relpath).relpath)

/-- The rows among a list of output events. -/
def rowsOf (evs : List REv) : List (List Char) :=
  evs.filterMap (fun e => match e with | .row n => some n | _ => none)

/-- Membership of a reference in rendering class j (the filter at
src/stagit.c lines 792-794): class 0 holds the branches, class 1 the tags. -/
def inClass (j : Nat) (r : RefObj) : Prop :=
  (r.isBranch ∧ j = 0) ∨ (r.isTag ∧ j = 1)

instance (j : Nat) (r : RefObj) : Decidable (inClass j r) := by
  unfold inClass
  infer_instance

/-- A reference on which every collaborator call involved in writerefs
succeeds and which is a direct (OID) reference; branch and tag
classification are mutually exclusive as they are for git references. -/
def healthyRef (r : RefObj) : Prop :=
  r.rtype = RefType.oid ∧ r.targetSome = true ∧ r.peelOk = true ∧
  r.peelIdSome = true ∧ r.ciOk = true ∧ ¬ (r.isBranch = true ∧ r.isTag = true)

instance (r : RefObj) : Decidable (healthyRef r) := by
  unfold healthyRef
  infer_instance

/-- The events a class pass renders when every reference is healthy: nothing
for an empty class, otherwise the header, one row per class member in
order, and the footer. -/
def classEvents (j : Nat) (refs : List RefObj) : List REv :=
  let names := (refs.filter (fun r => decide (inClass j r))).map RefObj.rShorthand
  if names = [] then [] else REv.header j :: (names.map REv.row ++ [REv.footer j])

/-- A healthy direct branch reference named "a". -/
def brA : RefObj :=
  ⟨true, false, RefType.oid, true, "a".toList, "a".toList, true, true, true, true⟩

/-- A healthy direct tag reference named "b". -/
def tagB : RefObj :=
  ⟨false, true, RefType.oid, true, "b".toList, "b".toList, true, true, true, true⟩

/-- A branch reference whose commit snapshot construction fails. -/
def brCiFail : RefObj :=
  ⟨true, false, RefType.oid, true, "a".toList, "a".toList, true, true, true, false⟩

/-- A branch reference that is symbolic and whose resolution fails. -/
def brSymFail : RefObj :=
  ⟨true, false, RefType.symbolic, false, "a".toList, "a".toList, true, true, true, true⟩

/-- Author identity and timestamp (git_signature with its git_time). -/
structure Sig where
  name : List Char
  email : List Char
  timeVal : Int
  timeOffset : Int
deriving DecidableEq, Repr

/-- One diff line (git_diff_line): old and new line numbers (-1 when the line
is absent on that side) and the content bytes. -/
structure DLine where
  oldLineno : Int
  newLineno : Int
  content : List Char
deriving DecidableEq, Repr

/-- One hunk (git_diff_hunk together with its lines). -/
structure Hunk where
  header : List Char
  lines : List DLine
deriving DecidableEq, Repr

/-- One delta of a diff (git_diff_delta with its patch): whether
git_patch_from_diff succeeds, the old and new file paths, the binary flag,
and the hunks. -/
structure Delta where
  patchOk : Bool
  oldPath : List Char
  newPath : List Char
  binary : Bool
  hunks : List Hunk
deriving DecidableEq, Repr

/-- Scalar data of one commit object in the repository model, together with
the outcomes and outputs of the collaborator calls commitinfo_getbyoid
makes for it: object lookup, tree lookups, diff and stats construction, the
rendered stats buffer, and the per-file deltas. -/
structure CommitData where
  oidHex : List Char
  lookupOk : Bool
  treeOk : Bool
  treeId : Nat
  diffOk : Bool
  statsOk : Bool
  statsToBufOk : Bool
  statsBuf : List Char
  deltas : List Delta
  author : Option Sig
  summary : Option (List Char)
  msg : Option (List Char)
  ctime : Int
  addcount : Nat
  delcount : Nat
  filecount : Nat
deriving DecidableEq, Repr

/-- A commit object with its first-parent chain. Only the first parent is
modelled: every history walk in stagit is first-parent simplified and
commitinfo_getbyoid reads only parent 0. -/
inductive CommitObj where
  | root (data : CommitData)
  | child (data : CommitData) (parent : CommitObj)
deriving DecidableEq, Repr

def CommitObj.data : CommitObj → CommitData
  | .root d => d
  | .child d _ => d

def CommitObj.parent : CommitObj → Option CommitObj
  | .root _ => none
  | .child _ p => some p

/-- The immutable snapshot struct commitinfo (src/stagit.c lines 18-38) as
filled in by commitinfo_getbyoid, together with the diff data later readers
consume. diffOldTree = none models passing a NULL (empty) old tree to
git_diff_tree_to_tree. -/
structure CommitInfoM where
  oid : List Char
  parentoid : List Char
  author : Option Sig
  summary : Option (List Char)
  msg : Option (List Char)
  diffOldTree : Option Nat
  diffNewTree : Nat
  statsToBufOk : Bool
  statsBuf : List Char
  deltas : List Delta
  addcount : Nat
  delcount : Nat
  filecount : Nat
deriving DecidableEq, Repr

/-- The snapshot contents commitinfo_getbyoid produces on success: the hex
id; the first parent's hex id, or empty when there is no parent
(git_oid_tostr with a NULL oid writes the empty string); author, summary
and message; the parent's tree or NULL (none) as the old diff side; the
commit's tree as the new side; and the diff statistics. -/
def ciData (c : CommitObj) : CommitInfoM :=
  { oid := c.data.oidHex,
    parentoid := match c.parent with | none => [] | some p => p.data.oidHex,
    author := c.data.author,
    summary := c.data.summary,
    msg := c.data.msg,
    diffOldTree := c.parent.map (fun p => p.data.treeId),
    diffNewTree := c.data.treeId,
    statsToBufOk := c.data.statsToBufOk,
    statsBuf := c.data.statsBuf,
    deltas := c.data.deltas,
    addcount := c.data.addcount,
    delcount := c.data.delcount,
    filecount := c.data.filecount }

/-- Embedding of commitinfo_getbyoid (src/stagit.c lines 64-113): any failing
collaborator lookup (commit lookup, commit tree, the existing parent's
tree, diff construction, stats construction) aborts construction and yields
no snapshot; otherwise the snapshot is built as in ciData. -/
def commitinfo_getbyoid (c : CommitObj) : Option CommitInfoM :=
  if ¬ c.data.lookupOk then none
  else if ¬ c.data.treeOk then none
  else if (match c.parent with | some p => !p.data.treeOk | none => false) then none
  else if ¬ c.data.diffOk then none
  else if ¬ c.data.statsOk then none
  else some (ciData c)

/-- The process-global rendering state: the relative-path cursor relpath and
the repository metadata of src/stagit.c lines 42-49, plus the
strftime-based time renderer (printtimeformat, src/stagit.c lines 205-216),
which is libc functionality and is modelled as an uninterpreted function of
the format string, the time value and the UTC offset. -/
structure Ctx where
  relpath : List Char
  name : List Char
  strippedName : List Char
  description : List Char
  cloneurl : List Char
  hasreadme : Bool
  haslicense : Bool
  timeFmt : List Char → Int → Int → List Char

/-- printtimez (src/stagit.c lines 218-222). -/
def printtimez (ctx : Ctx) (tv toff : Int) : List Char :=
  ctx.timeFmt "%Y-%m-%dT%H:%M:%SZ".toList tv toff

/-- printtime (src/stagit.c lines 224-228). -/
def printtime (ctx : Ctx) (tv toff : Int) : List Char :=
  ctx.timeFmt "%a %b %e %T %Y".toList tv toff

/-- printtimeshort (src/stagit.c lines 230-234). -/
def printtimeshort (ctx : Ctx) (tv toff : Int) : List Char :=
  ctx.timeFmt "%Y-%m-%d %H:%M".toList tv toff

/-- Embedding of writeheader (src/stagit.c lines 236-277). -/
def writeheader (ctx : Ctx) : List Char :=
  "<!DOCTYPE html>\n<html dir=\"ltr\" lang=\"en\">\n<head>\n<meta http-equiv=\"Content-Type\" content=\"text/html; charset=UTF-8\" />\n<meta http-equiv=\"Content-Language\" content=\"en\" />\n<title>".toList
  ++ xmlencode ctx.strippedName ctx.strippedName.length
  ++ (if ctx.description ≠ [] then " - ".toList else [])
  ++ xmlencode ctx.description ctx.description.length
  ++ "</title>\n<link rel=\"icon\" type=\"image/png\" href=\"".toList
  ++ ctx.relpath ++ "favicon.png\" />\n".toList
  ++ "<link rel=\"alternate\" type=\"application/atom+xml\" title=\"".toList
  ++ ctx.name ++ " Atom Feed\" href=\"".toList ++ ctx.relpath ++ "atom.xml\" />\n".toList
  ++ "<link rel=\"stylesheet\" type=\"text/css\" href=\"".toList
  ++ ctx.relpath ++ "style.css\" />\n".toList
  ++ "</head>\n<body>\n<table><tr><td>".toList
  ++ "<a href=\"../".toList ++ ctx.relpath ++ "\"><img src=\"".toList ++ ctx.relpath
  ++ "logo.png\" alt=\"\" width=\"32\" height=\"32\" /></a>".toList
  ++ "</td><td><h1>".toList
  ++ xmlencode ctx.strippedName ctx.strippedName.length
  ++ "</h1><span class=\"desc\">".toList
  ++ xmlencode ctx.description ctx.description.length
  ++ "</span></td></tr>".toList
  ++ (if ctx.cloneurl ≠ [] then
        "<tr class=\"url\"><td></td><td>git clone <a href=\"".toList
        ++ xmlencode ctx.cloneurl ctx.cloneurl.length
        ++ "\">".toList
        ++ xmlencode ctx.cloneurl ctx.cloneurl.length
        ++ "</a></td></tr>".toList
      else [])
  ++ "<tr><td></td><td>\n".toList
  ++ "<a href=\"".toList ++ ctx.relpath ++ "log.html\">Log</a> | ".toList
  ++ "<a href=\"".toList ++ ctx.relpath ++ "files.html\">Files</a> | ".toList
  ++ "<a href=\"".toList ++ ctx.relpath ++ "refs.html\">Refs</a>".toList
  ++ (if ctx.hasreadme then
        " | <a href=\"".toList ++ ctx.relpath ++ "file/README.html\">README</a>".toList
      else [])
  ++ (if ctx.haslicense then
        " | <a href=\"".toList ++ ctx.relpath ++ "file/LICENSE.html\">LICENSE</a>".toList
      else [])
  ++ "</td></tr></table>\n<hr/>\n<div id=\"content\">\n".toList

/-- Embedding of writefooter (src/stagit.c lines 279-283). -/
def writefooter : List Char := "</div>\n</body>\n</html>\n".toList

/-- The commit line of printcommit (src/stagit.c lines 317-318). -/
def commitLine (ctx : Ctx) (ci : CommitInfoM) : List Char :=
  "<b>commit</b> <a href=\"".toList ++ ctx.relpath ++ "commit/".toList ++ ci.oid
  ++ ".html\">".toList ++ ci.oid ++ "</a>\n".toList

/-- The parent line of printcommit (src/stagit.c lines 320-322), emitted only
when the parent id is non-empty. -/
def parentLine (ctx : Ctx) (ci : CommitInfoM) : List Char :=
  if ci.parentoid ≠ [] then
    "<b>parent</b> <a href=\"".toList ++ ctx.relpath ++ "commit/".toList ++ ci.parentoid
    ++ ".html\">".toList ++ ci.parentoid ++ "</a>\n".toList
  else []

/-- The author block of printcommit (src/stagit.c lines 324-334). -/
def authorBlock (ctx : Ctx) (ci : CommitInfoM) : List Char :=
  match ci.author with
  | some a =>
    "<b>Author:</b> ".toList ++ xmlencode a.name a.name.length
    ++ " &lt;<a href=\"mailto:".toList ++ xmlencode a.email a.email.length
    ++ "\">".toList ++ xmlencode a.email a.email.length
    ++ "</a>&gt;\n<b>Date:</b>   ".toList
    ++ printtime ctx a.timeVal a.timeOffset ++ "\n".toList
  | none => []

/-- The message block of printcommit (src/stagit.c lines 335-339). -/
def msgBlock (ci : CommitInfoM) : List Char :=
  match ci.msg with
  | some m => "\n".toList ++ xmlencode m m.length ++ "\n".toList
  | none => []

/-- Embedding of printcommit (src/stagit.c lines 314-340). -/
def printcommit (ctx : Ctx) (ci : CommitInfoM) : List Char :=
  commitLine ctx ci ++ parentLine ctx ci ++ authorBlock ctx ci ++ msgBlock ci

/-- One diff line as rendered by printshowfile (src/stagit.c lines 407-421):
an added line (old side absent) gets an anchored span with class "i" and a
'+' marker, a removed line (new side absent) class "d" and '-', a context
line a single space and no anchor. -/
def renderDLine (j k : Nat) (l : DLine) : List Char :=
  (if l.oldLineno = -1 then
    "<a href=\"#h".toList ++ (Nat.repr j).toList ++ "-".toList ++ (Nat.repr k).toList
    ++ "\" id=\"h".toList ++ (Nat.repr j).toList ++ "-".toList ++ (Nat.repr k).toList
    ++ "\" class=\"i\">+".toList
  else if l.newLineno = -1 then
    "<a href=\"#h".toList ++ (Nat.repr j).toList ++ "-".toList ++ (Nat.repr k).toList
    ++ "\" id=\"h".toList ++ (Nat.repr j).toList ++ "-".toList ++ (Nat.repr k).toList
    ++ "\" class=\"d\">-".toList
  else " ".toList)
  ++ xmlencode l.content l.content.length
  ++ (if l.oldLineno = -1 ∨ l.newLineno = -1 then "</a>".toList else [])

/-- The lines of one hunk, k counting from 0 (src/stagit.c lines 407-421). -/
def renderDLines (j : Nat) : Nat → List DLine → List Char
  | _, [] => []
  | k, l :: ls => renderDLine j k l ++ renderDLines j (k + 1) ls

/-- One hunk with its anchored header (src/stagit.c lines 399-422). -/
def renderHunk (j : Nat) (h : Hunk) : List Char :=
  "<a href=\"#h".toList ++ (Nat.repr j).toList ++ "\" id=\"h".toList
  ++ (Nat.repr j).toList ++ "\" class=\"h\">".toList
  ++ xmlencode h.header h.header.length
  ++ "</a>".toList
  ++ renderDLines j 0 h.lines

/-- All hunks of a delta, j counting from 0 (src/stagit.c lines 398-422). -/
def renderHunks : Nat → List Hunk → List Char
  | _, [] => []
  | j, h :: hs => renderHunk j h ++ renderHunks (j + 1) hs

/-- One delta: the diff --git header line linking both paths into the file
tree, then either the binary notice or the hunks
(src/stagit.c lines 386-422). -/
def renderDelta (ctx : Ctx) (d : Delta) : List Char :=
  "<b>diff --git a/<a href=\"".toList ++ ctx.relpath ++ "file/".toList ++ d.oldPath
  ++ ".html\">".toList ++ d.oldPath
  ++ "</a> b/<a href=\"".toList ++ ctx.relpath ++ "file/".toList ++ d.newPath
  ++ ".html\">".toList ++ d.newPath ++ "</a></b>\n".toList
  ++ (if d.binary then "Binary files differ\n".toList else renderHunks 0 d.hunks)

/-- The delta loop of printshowfile (src/stagit.c lines 379-424): a failed
git_patch_from_diff breaks out of the loop. -/
def renderDeltas (ctx : Ctx) : List Delta → List Char
  | [] => []
  | d :: ds => if ¬ d.patchOk then [] else renderDelta ctx d ++ renderDeltas ctx ds

/-- The diffstat block (src/stagit.c lines 367-375): emitted when the stats
buffer was produced and is non-empty. -/
def diffstatBlock (ci : CommitInfoM) : List Char :=
  if ci.statsToBufOk ∧ ci.statsBuf ≠ [] then
    "<b>Diffstat:</b>\n".toList ++ xmlencode ci.statsBuf ci.statsBuf.length
  else []

/-- The full bytes of a commit page as written by printshowfile
(src/stagit.c lines 360-429). -/
def showfileContent (ctx : Ctx) (ci : CommitInfoM) : List Char :=
  writeheader ctx ++ "<pre>".toList ++ printcommit ctx ci
  ++ diffstatBlock ci ++ "<hr/>".toList ++ renderDeltas ctx ci.deltas
  ++ "</pre>\n".toList ++ writefooter

/-- The filesystem under the output directory: an association list from path
to file content; earlier entries shadow later ones. -/
abbrev FS := List (List Char × List Char)

/-- The access(2) existence check used by printshowfile. -/
def fsExists (fs : FS) (p : List Char) : Bool :=
  fs.any (fun e => decide (e.1 = p))

/-- The output path of a commit page: "commit/<hex id>.html"
(src/stagit.c line 355). -/
def commitPagePath (ci : CommitInfoM) : List Char :=
  "commit/".toList ++ ci.oid ++ ".html".toList

/-- Embedding of printshowfile (src/stagit.c lines 342-431): if a file
already exists at the page path the function returns at once, touching
nothing; otherwise the page is rendered and written. -/
def printshowfile (ctx : Ctx) (fs : FS) (ci : CommitInfoM) : FS :=
  if fsExists fs (commitPagePath ci) then fs
  else (commitPagePath ci, showfileContent ctx ci) :: fs

/-- One log table row (src/stagit.c lines 456-479); the enclosing writelog
has just set relpath to "" when the row is printed. -/
def logRow (ctx : Ctx) (summarylen : Nat) (ci : CommitInfoM) : List Char :=
  "<tr><td>".toList
  ++ (match ci.author with
      | some a => printtimeshort ctx a.timeVal a.timeOffset
      | none => [])
  ++ "</td><td>".toList
  ++ (match ci.summary with
      | some s =>
        "<a href=\"".toList ++ ctx.relpath ++ "commit/".toList ++ ci.oid
        ++ ".html\">".toList ++ logSummaryText summarylen s ++ "</a>".toList
      | none => [])
  ++ "</td><td>".toList
  ++ (match ci.author with
      | some a => xmlencode a.name a.name.length
      | none => [])
  ++ "</td><td class=\"num\">".toList ++ (Nat.repr ci.filecount).toList
  ++ "</td><td class=\"num\">".toList ++ "+".toList ++ (Nat.repr ci.addcount).toList
  ++ "</td><td class=\"num\">".toList ++ "-".toList ++ (Nat.repr ci.delcount).toList
  ++ "</td></tr>\n".toList

/-- The revision loop of writelog (src/stagit.c lines 450-485): per commit,
relpath is set to "" for the row, the row is emitted, relpath is set to
"../" and the commit page is written; a failed snapshot construction stops
the walk. Returns the row bytes and the final filesystem. -/
def writelogLoop (ctx : Ctx) (summarylen : Nat) : List CommitObj → FS → List Char × FS
  | [], fs => ([], fs)
  | c :: rest, fs =>
    match commitinfo_getbyoid c with
    | none => ([], fs)
    | some ci =>
      (logRow { ctx with relpath := [] } summarylen ci
         ++ (writelogLoop ctx summarylen rest
              (printshowfile { ctx with relpath := "../".toList } fs ci)).1,
       (writelogLoop ctx summarylen rest
         (printshowfile { ctx with relpath := "../".toList } fs ci)).2)

/-- Embedding of writelog (src/stagit.c lines 433-493) given the revision
walk's output: the log table bytes, the filesystem after the per-commit
pages, and the final value of the global relpath, which writelog sets to
"" before returning on every path (line 490). -/
def writelog (ctx : Ctx) (summarylen : Nat) (walk : List CommitObj) (fs : FS) :
    List Char × FS × List Char :=
  ("<table id=\"log\"><thead>\n<tr><td>Age</td><td>Commit message</td><td>Author</td><td>Files</td><td class=\"num\">+</td><td class=\"num\">-</td></tr>\n</thead><tbody>\n".toList
     ++ (writelogLoop ctx summarylen walk fs).1 ++ "</tbody></table>".toList,
   (writelogLoop ctx summarylen walk fs).2,
   [])

/-- The relative prefix writeblob builds from its output path: one "../" per
slash in the path (src/stagit.c lines 589-595). -/
def blobRelpath : List Char → List Char
  | [] => []
  | c :: rest => (if c = '/' then "../".toList else []) ++ blobRelpath rest

/-- The line-number column and escaped content table of writeblobhtml
(src/stagit.c lines 285-312). -/
def writeblobhtmlOut (s : List Char) : List Char :=
  "<table id=\"blob\"><tr><td class=\"num\"><pre>\n".toList
  ++ ((blobAnchors s).map (fun n =>
        "<a href=\"#l".toList ++ (Nat.repr n).toList ++ "\" id=\"l".toList
        ++ (Nat.repr n).toList ++ "\">".toList ++ (Nat.repr n).toList
        ++ "</a>\n".toList)).flatten
  ++ "</pre></td><td><pre>\n".toList
  ++ xmlencode s s.length
  ++ "</pre></td></tr></table>\n".toList

/-- Embedding of writeblob (src/stagit.c lines 573-617): if mkdirp fails the
function returns -1 with relpath untouched; otherwise relpath is set to one
"../" per path component, the page is written (with a binary notice and
line count 0 for binary blobs), and relpath is reset to "" before
returning. Result: (line count or -1, filesystem, final relpath). -/
def writeblob (ctx : Ctx) (fs : FS) (rp0 : List Char) (mkdirpOk : Bool)
    (fpath filename : List Char) (filesize : Nat) (isBinary : Bool)
    (content : List Char) : Int × FS × List Char :=
  if ¬ mkdirpOk then (-1, fs, rp0)
  else
    ((if isBinary then 0 else (writeblobhtmlCount content : Int)),
     (fpath,
      writeheader { ctx with relpath := blobRelpath fpath }
      ++ "<p> ".toList ++ xmlencode filename filename.length
      ++ " (".toList ++ (Nat.repr filesize).toList ++ "B)".toList
      ++ "</p><hr/>".toList
      ++ (if isBinary then "<p>Binary file</p>\n".toList
          else writeblobhtmlOut content)
      ++ writefooter) :: fs,
     [])

/-- Generic insertion step for the sort model of collaborator walks. -/
def insertBy (le : CommitObj → CommitObj → Bool) (x : CommitObj) :
    List CommitObj → List CommitObj
  | [] => [x]
  | y :: ys => if le x y then x :: y :: ys else y :: insertBy le x ys

/-- Generic insertion sort for the sort model of collaborator walks. -/
def sortBy (le : CommitObj → CommitObj → Bool) : List CommitObj → List CommitObj
  | [] => []
  | x :: xs => insertBy le x (sortBy le xs)

/-- Commit-time-descending order used by GIT_SORT_TIME. -/
def newerLe (a b : CommitObj) : Bool := decide (b.data.ctime ≤ a.data.ctime)

/-- The first-parent chain of a commit: itself, then its first parent's
chain. -/
def firstParentChain : CommitObj → List CommitObj
  | .root d => [.root d]
  | .child d p => .child d p :: firstParentChain p

/-- Modelled from the spec: the revision-walk collaborator (libgit2
git_revwalk, which is not part of src/) configured as every stagit walk is,
with GIT_SORT_TIME and git_revwalk_simplify_first_parent: "Walk commit
history from a start point in a specified order (commit-time descending)
with an option to restrict traversal to first-parent links only." The walk
yields the first-parent chain of the start commit in
commit-time-descending order. -/
def revwalkModel (start : CommitObj) : List CommitObj :=
  sortBy newerLe (firstParentChain start)

/-- The repository as writeatom sees it: writeatom has no revision parameter;
it pushes the head reference itself (git_revwalk_push_head,
src/stagit.c line 556). -/
structure Repo where
  head : CommitObj

/-- Embedding of printcommitatom (src/stagit.c lines 495-538). -/
def printcommitatom (ctx : Ctx) (ci : CommitInfoM) : List Char :=
  "<entry>\n".toList
  ++ "<id>".toList ++ ci.oid ++ "</id>\n".toList
  ++ (match ci.author with
      | some a =>
        "<updated>".toList ++ printtimez ctx a.timeVal a.timeOffset
        ++ "</updated>\n".toList
      | none => [])
  ++ (match ci.summary with
      | some s =>
        "<title type=\"text\">".toList ++ xmlencode s s.length ++ "</title>\n".toList
      | none => [])
  ++ "<content type=\"text\">".toList
  ++ "commit ".toList ++ ci.oid ++ "\n".toList
  ++ (if ci.parentoid ≠ [] then "parent ".toList ++ ci.parentoid ++ "\n".toList else [])
  ++ (match ci.author with
      | some a =>
        "Author: ".toList ++ xmlencode a.name a.name.length
        ++ " &lt;".toList ++ xmlencode a.email a.email.length
        ++ "&gt;\nDate:   ".toList ++ printtime ctx a.timeVal a.timeOffset
        ++ "\n".toList
      | none => [])
  ++ (match ci.msg with
      | some m => "\n".toList ++ xmlencode m m.length
      | none => [])
  ++ "\n</content>\n".toList
  ++ (match ci.author with
      | some a =>
        "<author><name>".toList ++ xmlencode a.name a.name.length
        ++ "</name>\n<email>".toList ++ xmlencode a.email a.email.length
        ++ "</email>\n</author>\n".toList
      | none => [])
  ++ "</entry>\n".toList

/-- The entry loop of writeatom (src/stagit.c lines 560-565): at most m more
entries (the i < m test precedes each walk step), one entry per walked
commit, stopping at the first failed snapshot construction. This variant
collects the entries as a list. -/
def writeatomEntriesLoop (ctx : Ctx) : Nat → List CommitObj → List (List Char)
  | 0, _ => []
  | _, [] => []
  | m + 1, c :: rest =>
    match commitinfo_getbyoid c with
    | none => []
    | some ci => printcommitatom ctx ci :: writeatomEntriesLoop ctx m rest

/-- The entries writeatom emits: the walk starts from the repository head
(not from any passed-in revision) and is capped at 100 entries
(src/stagit.c line 546). -/
def writeatomEntries (ctx : Ctx) (repo : Repo) : List (List Char) :=
  writeatomEntriesLoop ctx 100 (revwalkModel repo.head)

/-- Embedding of writeatom (src/stagit.c lines 540-571): the feed declaration
and title block, the entries, and the closing tag. -/
def writeatom (ctx : Ctx) (repo : Repo) : List Char :=
  "<?xml version=\"1.0\" encoding=\"UTF-8\"?>\n<feed xmlns=\"http://www.w3.org/2005/Atom\">\n<title>".toList
  ++ xmlencode ctx.strippedName ctx.strippedName.length
  ++ ", branch HEAD</title>\n<subtitle>".toList
  ++ xmlencode ctx.description ctx.description.length
  ++ "</subtitle>\n".toList
  ++ (writeatomEntries ctx repo).flatten
  ++ "</feed>".toList

/-- A rendering context with empty relpath and a trivial time renderer. -/
def ctx0 : Ctx := ⟨[], "r".toList, "r".toList, [], [], false, false, fun _ _ _ => []⟩

/-- A minimal commit snapshot with id "ab". -/
def ci0 : CommitInfoM :=
  ⟨"ab".toList, [], none, none, none, none, 0, false, [], [], 0, 0, 0⟩

/-- A filesystem already holding the page for commit "ab". -/
def fs0 : FS := [("commit/ab.html".toList, [])]

/-- The object-store data of a concrete root commit with id "aa" on which
every collaborator call succeeds. -/
def cd0 : CommitData :=
  ⟨"aa".toList, true, true, 0, true, true, false, [], [], none, none, none, 0, 0, 0, 0⟩

/-- A concrete root commit. -/
def rootC : CommitObj := CommitObj.root cd0

/-- A repository whose head is the concrete root commit. -/
def repo0 : Repo := ⟨rootC⟩

theorem xmlencode_eq_flatten (s : List Char) (len : Nat) :
    xmlencode s len = ((truncAtNul s len).map escapeChar).flatten := by
  induction s generalizing len with
  | nil => cases len <;> simp [xmlencode, truncAtNul]
  | cons c s ih =>
    cases len with
    | zero => simp [xmlencode, truncAtNul]
    | succ n =>
      by_cases h : c = nulChar <;> simp [xmlencode, truncAtNul, h, ih]

theorem escapeChar_length_pos (c : Char) : 1 ≤ (escapeChar c).length := by
  unfold escapeChar
  split <;> try simp
  split <;> try simp
  split <;> try simp
  split <;> try simp
  split <;> simp

theorem xmldecodeF_escape (fuel : Nat) (c : Char) (rest : List Char) :
    xmldecodeF (fuel + 1) (escapeChar c ++ rest) = c :: xmldecodeF fuel rest := by
  by_cases h1 : c = '<'
  · subst h1; rfl
  by_cases h2 : c = '>'
  · subst h2; rfl
  by_cases h3 : c = Char.ofNat 39
  · subst h3; rfl
  by_cases h4 : c = '&'
  · subst h4; rfl
  by_cases h5 : c = '"'
  · subst h5; rfl
  have he : escapeChar c = [c] := by simp [escapeChar, h1, h2, h3, h4, h5]
  rw [he]
  simp only [List.singleton_append, xmldecodeF, if_neg h4, List.append_eq, List.nil_append]

theorem xmldecodeF_encode (s : List Char) (len fuel : Nat)
    (h : (truncAtNul s len).length ≤ fuel) :
    xmldecodeF fuel (xmlencode s len) = truncAtNul s len := by
  induction s generalizing len fuel with
  | nil => cases len <;> simp [xmlencode, truncAtNul, xmldecodeF]
  | cons c s ih =>
    cases len with
    | zero => simp [xmlencode, truncAtNul, xmldecodeF]
    | succ n =>
      by_cases hc : c = nulChar
      · simp [xmlencode, truncAtNul, hc, xmldecodeF]
      · rw [truncAtNul, if_neg hc] at h ⊢
        rw [xmlencode, if_neg hc]
        simp only [List.length_cons] at h
        obtain ⟨f, rfl⟩ : ∃ f, fuel = f + 1 := ⟨fuel - 1, by omega⟩
        rw [xmldecodeF_escape]
        rw [ih n f (by omega)]

theorem length_le_flatten_escape (l : List Char) :
    l.length ≤ ((l.map escapeChar).flatten).length := by
  induction l with
  | nil => simp
  | cons c l ih =>
    simp only [List.map_cons, List.flatten_cons, List.length_append, List.length_cons]
    have := escapeChar_length_pos c
    omega

theorem truncAtNul_of_no_nul (s : List Char) (len : Nat)
    (h : ∀ c ∈ s, c ≠ nulChar) : truncAtNul s len = s.take len := by
  induction s generalizing len with
  | nil => cases len <;> simp [truncAtNul]
  | cons c s ih =>
    cases len with
    | zero => simp [truncAtNul]
    | succ n =>
      have hc : c ≠ nulChar := h c (by simp)
      rw [truncAtNul, if_neg hc, List.take_succ_cons, ih n (fun x hx => h x (by simp [hx]))]

/-- C2: xmlencode processes exactly the prefix of its input ending at the
first NUL byte or at the length bound, whichever comes first, escaping the
five reserved characters and passing all other bytes through; unescaping
the five named entities in the output reproduces that prefix exactly, and
for NUL-free input the prefix is precisely the first len bytes. -/
theorem xmlencode_roundtrip (s : List Char) (len : Nat) :
    xmlencode s len = ((truncAtNul s len).map escapeChar).flatten ∧
    xmldecode (xmlencode s len) = truncAtNul s len ∧
    ((∀ c ∈ s, c ≠ nulChar) → truncAtNul s len = s.take len) := by
  refine ⟨xmlencode_eq_flatten s len, ?_, truncAtNul_of_no_nul s len⟩
  apply xmldecodeF_encode
  rw [xmlencode_eq_flatten]
  exact length_le_flatten_escape _

/-- Witness for C2 at a concrete input containing reserved characters. -/
theorem xmlencode_roundtrip_witness :
    xmldecode (xmlencode "a<b>c&d\"e".toList 9) = "a<b>c&d\"e".toList.take 9 := by
  have h := (xmlencode_roundtrip "a<b>c&d\"e".toList 9).2
  rw [h.1, h.2 (by decide)]

theorem blobAnchorsAux_eq (l : List Char) (n : Nat) :
    blobAnchorsAux l n = List.range' (n + 1) (l.count '\n') := by
  induction l generalizing n with
  | nil => simp [blobAnchorsAux]
  | cons c l ih =>
    by_cases h : c = '\n'
    · subst h
      simp [blobAnchorsAux, ih, List.count_cons, List.range'_succ]
    · simp [blobAnchorsAux, h, ih, List.count_cons]

/-- C6: writeblobhtml emits one line-number anchor per line and returns that
count: zero for empty content, and otherwise one more than the number of
newline bytes among the first len-1 bytes (so a final unterminated line is
counted); the anchors are numbered 1 through the returned count. -/
theorem writeblobhtml_linecount (s : List Char) :
    writeblobhtmlCount s =
      (if s.length = 0 then 0 else 1 + (s.take (s.length - 1)).count '\n') ∧
    blobAnchors s = List.range' 1 (writeblobhtmlCount s) := by
  constructor
  · by_cases h : s.length = 0 <;>
      simp [writeblobhtmlCount, blobAnchors, h, blobAnchorsAux_eq, Nat.add_comm]
  · by_cases h : s.length = 0
    · simp [writeblobhtmlCount, blobAnchors, h]
    · simp [writeblobhtmlCount, blobAnchors, h, blobAnchorsAux_eq, List.range'_succ]

/-- C7 counterexample: with a character budget of 3 and the summary "abcd"
(length 4, exceeding the budget), the emitted text is the summary clipped
to 2 = summarylen - 1 characters plus the ellipsis, not the claimed clip to
the full budget of 3 characters. -/
theorem logSummaryText_counterexample :
    ¬ (logSummaryText 3 "abcd".toList = xmlencode "abcd".toList 3 ++ [horizEllipsis]) := by
  decide

/-- C7 (amended): when the summary exceeds the budget, the emitted text is
the summary clipped to summarylen - 1 characters (escaped) followed by the
ellipsis glyph; otherwise the whole summary is emitted escaped with no
ellipsis. -/
theorem logSummaryText_spec (k : Nat) (s : List Char) (hk : 0 < k)
    (hs : ∀ c ∈ s, c ≠ nulChar) :
    logSummaryText k s =
      if s.length > k then
        (((s.take (k - 1)).map escapeChar).flatten) ++ [horizEllipsis]
      else
        (s.map escapeChar).flatten := by
  have hsub : sizeSub1 k = k - 1 := by simp [sizeSub1, Nat.pos_iff_ne_zero.mp hk]
  by_cases h : s.length > k
  · rw [logSummaryText, if_pos h, if_pos h, hsub, xmlencode_eq_flatten,
      truncAtNul_of_no_nul s (k - 1) hs]
  · rw [logSummaryText, if_neg h, if_neg h, xmlencode_eq_flatten,
      truncAtNul_of_no_nul s s.length hs, List.take_length]

/-- Witness for C7's amended statement at summarylen 3 and summary "abcd". -/
theorem logSummaryText_spec_witness :
    logSummaryText 3 "abcd".toList =
      ((("abcd".toList.take 2).map escapeChar).flatten) ++ [horizEllipsis] := by
  have h := logSummaryText_spec 3 "abcd".toList (by decide) (by decide)
  simpa using h

theorem char_toNat_inj {a b : Char} (h : a.toNat = b.toNat) : a = b :=
  Char.ext (UInt32.ext h)

theorem nulChar_toNat : nulChar.toNat = 0 := rfl

theorem cTrunc_nil : cTrunc [] = [] := rfl

theorem cTrunc_cons_nul (s : List Char) : cTrunc (nulChar :: s) = [] := by
  simp [cTrunc]

theorem cTrunc_cons {c : Char} (s : List Char) (h : c ≠ nulChar) :
    cTrunc (c :: s) = c :: cTrunc s := by
  simp [cTrunc, h]

theorem strcmpInt_nil_cons (y : Char) (bs : List Char) :
    strcmpInt [] (y :: bs) = 0 - (y.toNat : Int) := rfl

theorem strcmpInt_cons_nil (x : Char) (as : List Char) :
    strcmpInt (x :: as) [] = (x.toNat : Int) - 0 := rfl

theorem strcmpInt_cons_cons (x y : Char) (as bs : List Char) :
    strcmpInt (x :: as) (y :: bs) =
      if x = y then (if x = nulChar then 0 else strcmpInt as bs)
      else (x.toNat : Int) - (y.toNat : Int) := rfl

theorem strcmpP_nil_cons (y : Char) (bs : List Char) :
    strcmpP [] (y :: bs) = 0 - (y.toNat : Int) := rfl

theorem strcmpP_cons_nil (x : Char) (as : List Char) :
    strcmpP (x :: as) [] = (x.toNat : Int) - 0 := rfl

theorem strcmpP_cons_cons (x y : Char) (as bs : List Char) :
    strcmpP (x :: as) (y :: bs) =
      if x = y then strcmpP as bs
      else (x.toNat : Int) - (y.toNat : Int) := rfl

theorem toNat_eq_zero_iff_nul (c : Char) : c.toNat = 0 ↔ c = nulChar := by
  constructor
  · intro h; exact char_toNat_inj (by simpa [nulChar] using h)
  · intro h; subst h; rfl

theorem strcmpInt_eq_P (a b : List Char) :
    strcmpInt a b = strcmpP (cTrunc a) (cTrunc b) := by
  induction a generalizing b with
  | nil =>
    cases b with
    | nil => rfl
    | cons y bs =>
      by_cases hy : y = nulChar
      · subst hy
        rw [strcmpInt_nil_cons, cTrunc_nil, cTrunc_cons_nul, nulChar_toNat]
        rfl
      · rw [strcmpInt_nil_cons, cTrunc_nil, cTrunc_cons bs hy, strcmpP_nil_cons]
  | cons x as ih =>
    cases b with
    | nil =>
      by_cases hx : x = nulChar
      · subst hx
        rw [strcmpInt_cons_nil, cTrunc_nil, cTrunc_cons_nul, nulChar_toNat]
        rfl
      · rw [strcmpInt_cons_nil, cTrunc_nil, cTrunc_cons as hx, strcmpP_cons_nil]
    | cons y bs =>
      rw [strcmpInt_cons_cons]
      by_cases hxy : x = y
      · subst hxy
        rw [if_pos rfl]
        by_cases hx : x = nulChar
        · subst hx
          rw [if_pos rfl, cTrunc_cons_nul, cTrunc_cons_nul]
          rfl
        · rw [if_neg hx, cTrunc_cons as hx, cTrunc_cons bs hx, strcmpP_cons_cons,
            if_pos rfl, ih]
      · rw [if_neg hxy]
        by_cases hx : x = nulChar
        · subst hx
          have hy : y ≠ nulChar := fun h => hxy h.symm
          rw [cTrunc_cons_nul, cTrunc_cons bs hy, strcmpP_nil_cons, nulChar_toNat]
          norm_num
        · by_cases hy : y = nulChar
          · subst hy
            rw [cTrunc_cons as hx, cTrunc_cons_nul, strcmpP_cons_nil, nulChar_toNat]
            norm_num
          · rw [cTrunc_cons as hx, cTrunc_cons bs hy, strcmpP_cons_cons, if_neg hxy]

theorem strcmpP_nil_le (c : List Char) : strcmpP [] c ≤ 0 := by
  cases c with
  | nil => simp [strcmpP]
  | cons y cs => simp [strcmpP]

theorem nulFree_cTrunc (s : List Char) : ∀ c ∈ cTrunc s, c ≠ nulChar := by
  intro c hc
  have := List.mem_takeWhile_imp hc
  simpa using this

theorem strcmpP_le_trans (a b c : List Char)
    (ha : ∀ x ∈ a, x ≠ nulChar) (hb : ∀ x ∈ b, x ≠ nulChar)
    (h1 : strcmpP a b ≤ 0) (h2 : strcmpP b c ≤ 0) : strcmpP a c ≤ 0 := by
  induction a generalizing b c with
  | nil => exact strcmpP_nil_le c
  | cons x as ih =>
    cases b with
    | nil =>
      exfalso
      have hx : x ≠ nulChar := ha x (by simp)
      have : (x.toNat : Int) - 0 ≤ 0 := h1
      have hxz : x.toNat = 0 := by omega
      exact hx ((toNat_eq_zero_iff_nul x).mp hxz)
    | cons y bs =>
      cases c with
      | nil =>
        exfalso
        have hy : y ≠ nulChar := hb y (by simp)
        have : (y.toNat : Int) - 0 ≤ 0 := h2
        have hyz : y.toNat = 0 := by omega
        exact hy ((toNat_eq_zero_iff_nul y).mp hyz)
      | cons z cs =>
        by_cases hxy : x = y <;> by_cases hyz : y = z
        · subst hxy; subst hyz
          rw [strcmpP, if_pos rfl]
          rw [strcmpP, if_pos rfl] at h1 h2
          exact ih bs cs (fun t ht => ha t (by simp [ht])) (fun t ht => hb t (by simp [ht])) h1 h2
        · subst hxy
          rw [strcmpP, if_neg hyz] at h2
          rw [strcmpP, if_neg hyz]
          exact h2
        · subst hyz
          rw [strcmpP, if_neg hxy] at h1
          rw [strcmpP, if_neg hxy]
          exact h1
        · rw [strcmpP, if_neg hxy] at h1
          rw [strcmpP, if_neg hyz] at h2
          by_cases hxz : x = z
          · subst hxz
            exfalso
            have : x.toNat = y.toNat := by omega
            exact hxy (char_toNat_inj this)
          · rw [strcmpP, if_neg hxz]
            omega

theorem strcmpInt_le_trans (a b c : List Char)
    (h1 : strcmpInt a b ≤ 0) (h2 : strcmpInt b c ≤ 0) : strcmpInt a c ≤ 0 := by
  rw [strcmpInt_eq_P] at h1 h2 ⊢
  exact strcmpP_le_trans _ _ _ (nulFree_cTrunc a) (nulFree_cTrunc b) h1 h2

theorem strcmpInt_antisym (a b : List Char) : strcmpInt b a = -strcmpInt a b := by
  induction a generalizing b with
  | nil =>
    cases b with
    | nil => rfl
    | cons y bs => simp [strcmpInt]
  | cons x as ih =>
    cases b with
    | nil => simp [strcmpInt]
    | cons y bs =>
      by_cases hxy : x = y
      · subst hxy
        by_cases hx : x = nulChar
        · simp [strcmpInt, hx]
        · simp [strcmpInt, hx, ih]
      · have hyx : y ≠ x := fun h => hxy h.symm
        rw [strcmpInt, if_neg hyx, strcmpInt, if_neg hxy]
        omega

theorem refs_cmp_antisym (a b : RefObj) : refs_cmp b a = -refs_cmp a b := by
  by_cases ha : a.isBranch <;> by_cases hb : b.isBranch <;>
    simp [refs_cmp, ha, hb, strcmpInt_antisym b.shorthand a.shorthand]

theorem refs_cmp_total (a b : RefObj) : refs_cmp a b ≤ 0 ∨ refs_cmp b a ≤ 0 := by
  rw [refs_cmp_antisym]
  omega

theorem refs_cmp_le_trans {a b c : RefObj}
    (h1 : refs_cmp a b ≤ 0) (h2 : refs_cmp b c ≤ 0) : refs_cmp a c ≤ 0 := by
  by_cases ha : a.isBranch <;> by_cases hb : b.isBranch <;> by_cases hc : c.isBranch <;>
    simp [refs_cmp, ha, hb, hc] at h1 h2 ⊢ <;>
    exact strcmpInt_le_trans _ _ _ h1 h2

theorem mem_insertRef {r x : RefObj} {l : List RefObj} :
    x ∈ insertRef r l ↔ x = r ∨ x ∈ l := by
  induction l with
  | nil => simp [insertRef]
  | cons y ys ih =>
    by_cases h : refs_cmp r y ≤ 0
    · simp [insertRef, h]
    · simp [insertRef, h, ih]
      tauto

theorem pairwise_insertRef {r : RefObj} {l : List RefObj}
    (h : l.Pairwise refsLe) : (insertRef r l).Pairwise refsLe := by
  induction l with
  | nil => simp [insertRef]
  | cons x xs ih =>
    by_cases hc : refs_cmp r x ≤ 0
    · rw [insertRef, if_pos hc]
      refine List.Pairwise.cons ?_ h
      intro y hy
      rcases List.mem_cons.mp hy with rfl | hy
      · exact hc
      · have hx : refsLe x y := (List.pairwise_cons.mp h).1 y hy
        exact refs_cmp_le_trans hc hx
    · rw [insertRef, if_neg hc]
      have hxr : refsLe x r := by
        rcases refs_cmp_total r x with h1 | h1
        · exact absurd h1 hc
        · exact h1
      rcases List.pairwise_cons.mp h with ⟨hx, hxs⟩
      refine List.Pairwise.cons ?_ (ih hxs)
      intro y hy
      rcases mem_insertRef.mp hy with rfl | hy
      · exact hxr
      · exact hx y hy

theorem sortRefs_pairwise (l : List RefObj) : (sortRefs l).Pairwise refsLe := by
  induction l with
  | nil => simp [sortRefs]
  | cons x xs ih => exact pairwise_insertRef ih

theorem insertRef_perm (r : RefObj) (l : List RefObj) :
    (insertRef r l).Perm (r :: l) := by
  induction l with
  | nil => simp [insertRef]
  | cons x xs ih =>
    by_cases h : refs_cmp r x ≤ 0
    · simp [insertRef, h]
    · rw [insertRef, if_neg h]
      exact List.Perm.trans (List.Perm.cons x ih) (List.Perm.swap r x xs)

theorem sortRefs_perm (l : List RefObj) : (sortRefs l).Perm l := by
  induction l with
  | nil => simp [sortRefs]
  | cons x xs ih =>
    exact (insertRef_perm x (sortRefs xs)).trans (List.Perm.cons x ih)

theorem rowsOf_hdr_row (P : Prop) [Decidable P] (j : Nat) (n : List Char)
    (evs : List REv) :
    rowsOf ((if P then [REv.header j] else []) ++ REv.row n :: evs) =
      n :: rowsOf evs := by
  by_cases h : P <;> simp [rowsOf, h]

theorem refStep_healthy (j : Nat) (r : RefObj) (h : healthyRef r) :
    refStep j r = if inClass j r then StepKind.rowR else StepKind.skipR := by
  obtain ⟨h1, h2, h3, h4, h5, _⟩ := h
  by_cases hc : inClass j r
  · rw [if_pos hc]
    unfold inClass at hc
    unfold refStep
    rw [if_neg (not_not_intro hc), h1]
    show refStepResolved r = StepKind.rowR
    unfold refStepResolved
    rw [h2, h3, h4, h5]
    simp
  · rw [if_neg hc]
    unfold inClass at hc
    unfold refStep
    rw [if_pos hc]

theorem innerLoop_relpath (j : Nat) (rs : List RefObj) (count : Nat)
    (rp : List Char) :
    (innerLoop j rs count rp).relpath =
      if rowsOf (innerLoop j rs count rp).events = [] then rp
      else "../".toList := by
  induction rs generalizing count rp with
  | nil => simp [innerLoop, rowsOf]
  | cons r rest ih =>
    rw [innerLoop]
    match hstep : refStep j r with
    | .skipR => exact ih count rp
    | .errR => simp [rowsOf]
    | .breakR => simp [rowsOf]
    | .rowR =>
      show (innerLoop j rest (count + 1) "../".toList).relpath =
        if rowsOf ((if count + 1 = 1 then [REv.header j] else []) ++
            REv.row r.rShorthand ::
              (innerLoop j rest (count + 1) "../".toList).events) = [] then rp
        else "../".toList
      rw [rowsOf_hdr_row]
      rw [if_neg (by simp)]
      rw [ih (count + 1) "../".toList]
      split <;> rfl

theorem innerLoop_clean (j : Nat) (rs : List RefObj) (count : Nat)
    (rp : List Char) (h : ∀ r ∈ rs, healthyRef r) :
    innerLoop j rs count rp =
      ⟨(if count = 0 ∧
            ((rs.filter (fun r => decide (inClass j r))).map RefObj.rShorthand) ≠ []
          then [REv.header j] else []) ++
        ((rs.filter (fun r => decide (inClass j r))).map RefObj.rShorthand).map REv.row,
       count + ((rs.filter (fun r => decide (inClass j r))).map RefObj.rShorthand).length,
       (if ((rs.filter (fun r => decide (inClass j r))).map RefObj.rShorthand) = []
          then rp else "../".toList),
       false⟩ := by
  induction rs generalizing count rp with
  | nil => simp [innerLoop]
  | cons r rest ih =>
    have hr := refStep_healthy j r (h r (by simp))
    have hrest : ∀ x ∈ rest, healthyRef x := fun x hx => h x (by simp [hx])
    by_cases hc : inClass j r
    · rw [innerLoop, hr, if_pos hc]
      show (⟨(if count + 1 = 1 then [REv.header j] else []) ++
          REv.row r.rShorthand ::
            (innerLoop j rest (count + 1) "../".toList).events,
          (innerLoop j rest (count + 1) "../".toList).count,
          (innerLoop j rest (count + 1) "../".toList).relpath,
          (innerLoop j rest (count + 1) "../".toList).gotoErr⟩ : InnerRes) = _
      rw [ih (count + 1) "../".toList hrest]
      simp only [List.filter_cons, decide_eq_true_eq, if_pos hc, List.map_cons,
        InnerRes.mk.injEq]
      refine ⟨?_, by simp [Nat.add_comm, Nat.add_assoc, Nat.add_left_comm], by simp, trivial⟩
      by_cases h0 : count = 0
      · subst h0
        simp
      · have h1 : ¬ (count + 1 = 1) := by omega
        simp [h0, h1]
    · rw [innerLoop, hr, if_neg hc]
      rw [ih count rp hrest]
      simp [List.filter_cons, hc]

theorem classLoop_clean (j : Nat) (refs : List RefObj) (rp : List Char)
    (h : ∀ r ∈ refs, healthyRef r) :
    classLoop j refs rp =
      ⟨classEvents j refs,
       (if ((refs.filter (fun r => decide (inClass j r))).map RefObj.rShorthand) = []
          then rp else "../".toList),
       false⟩ := by
  unfold classLoop
  rw [innerLoop_clean j refs 0 rp h]
  by_cases hn : ((refs.filter (fun r => decide (inClass j r))).map RefObj.rShorthand) = []
  · simp [hn, classEvents]
  · simp only [classEvents]
    simp at hn
    simp [hn]
    obtain ⟨x, hx, hcx⟩ := hn
    rw [if_neg (fun hall => hall x hx hcx)]

theorem writerefs_clean (refs0 : List RefObj) (rp0 : List Char)
    (h : ∀ r ∈ refs0, healthyRef r) :
    (writerefs refs0 rp0).1 =
      classEvents 0 (sortRefs refs0) ++ classEvents 1 (sortRefs refs0) := by
  have hs : ∀ r ∈ sortRefs refs0, healthyRef r :=
    fun r hr => h r ((sortRefs_perm refs0).mem_iff.mp hr)
  unfold writerefs
  rw [classLoop_clean 0 (sortRefs refs0) rp0 hs]
  simp only [Bool.false_eq_true, if_false]
  rw [classLoop_clean 1 (sortRefs refs0) _ hs]

/-- C5 counterexample: the comparator does not sort branches before tags.
For the branch "a" and the tag "b", refs_cmp branch tag = 1 > 0, so the
sort places the tag before the branch: the sorted array is [tag, branch]. -/
theorem refs_cmp_counterexample :
    refs_cmp brA tagB = 1 ∧ sortRefs [brA, tagB] = [tagB, brA] ∧
    ¬ sortRefs [brA, tagB] = [brA, tagB] := by decide

/-- C5 (amended): refs_cmp orders non-branches (tags) before branches —
t1 - t2 is positive when r1 is a branch and r2 is not — and within a class
lexicographically by shorthand; the rendered page nonetheless lists the
branches table before the tags table, because writerefs renders class 0
(branches) and then class 1 (tags) by filtering the sorted array, with rows
in lexicographic shorthand order inside each table. -/
theorem writerefs_order (refs0 : List RefObj) (rp0 : List Char)
    (h : ∀ r ∈ refs0, healthyRef r) :
    (∀ a b : RefObj, a.isBranch = false → b.isBranch = true → refs_cmp a b < 0) ∧
    (∀ a b : RefObj, a.isBranch = b.isBranch →
        refs_cmp a b = strcmpInt a.shorthand b.shorthand) ∧
    (sortRefs refs0).Pairwise (fun a b => a.isBranch = true → b.isBranch = true) ∧
    (writerefs refs0 rp0).1 =
      classEvents 0 (sortRefs refs0) ++ classEvents 1 (sortRefs refs0) ∧
    ((sortRefs refs0).filter (fun r => decide (inClass 0 r))).Pairwise
      (fun a b => strcmpInt a.shorthand b.shorthand ≤ 0) ∧
    ((sortRefs refs0).filter (fun r => decide (inClass 1 r))).Pairwise
      (fun a b => strcmpInt a.shorthand b.shorthand ≤ 0) := by
  have hmem : ∀ r ∈ sortRefs refs0, healthyRef r :=
    fun r hr => h r ((sortRefs_perm refs0).mem_iff.mp hr)
  refine ⟨?_, ?_, ?_, writerefs_clean refs0 rp0 h, ?_, ?_⟩
  · intro a b ha hb
    simp [refs_cmp, ha, hb]
  · intro a b hab
    simp [refs_cmp, hab]
  · refine (sortRefs_pairwise refs0).imp ?_
    intro a b hle hab
    by_contra hbb
    have hb : b.isBranch = false := by
      cases hx : b.isBranch
      · rfl
      · exact absurd hx hbb
    have : refs_cmp a b = 1 := by simp [refs_cmp, hab, hb]
    rw [refsLe, this] at hle
    omega
  · refine List.Pairwise.imp_of_mem ?_
      ((sortRefs_pairwise refs0).sublist (List.filter_sublist _))
    intro a b hma hmb hle
    have ha : inClass 0 a := by simpa using List.of_mem_filter hma
    have hb : inClass 0 b := by simpa using List.of_mem_filter hmb
    have ha1 : a.isBranch = true := by
      rcases ha with ⟨h1, _⟩ | ⟨_, h2⟩
      · exact h1
      · omega
    have hb1 : b.isBranch = true := by
      rcases hb with ⟨h1, _⟩ | ⟨_, h2⟩
      · exact h1
      · omega
    rw [refsLe, refs_cmp] at hle
    simpa [ha1, hb1] using hle
  · refine List.Pairwise.imp_of_mem ?_
      ((sortRefs_pairwise refs0).sublist (List.filter_sublist _))
    intro a b hma hmb hle
    have ha : inClass 1 a := by simpa using List.of_mem_filter hma
    have hb : inClass 1 b := by simpa using List.of_mem_filter hmb
    have hat : a.isTag = true := by
      rcases ha with ⟨_, h2⟩ | ⟨h1, _⟩
      · omega
      · exact h1
    have hbt : b.isTag = true := by
      rcases hb with ⟨_, h2⟩ | ⟨h1, _⟩
      · omega
      · exact h1
    have hah := hmem a (List.mem_of_mem_filter hma)
    have hbh := hmem b (List.mem_of_mem_filter hmb)
    have ha1 : a.isBranch = false := by
      cases hx : a.isBranch
      · rfl
      · exact absurd ⟨hx, hat⟩ hah.2.2.2.2.2
    have hb1 : b.isBranch = false := by
      cases hx : b.isBranch
      · rfl
      · exact absurd ⟨hx, hbt⟩ hbh.2.2.2.2.2
    rw [refsLe, refs_cmp] at hle
    simpa [ha1, hb1] using hle

/-- Witness for C5's amended statement on a healthy branch and tag: the
rendered events are the branches table followed by the tags table. -/
theorem writerefs_order_witness :
    (writerefs [brA, tagB] []).1 =
      classEvents 0 (sortRefs [brA, tagB]) ++ classEvents 1 (sortRefs [brA, tagB]) :=
  (writerefs_order [brA, tagB] [] (by decide)).2.2.2.1

/-- C3 counterexample: with one branch whose commit snapshot construction
fails and one healthy tag, the refs writer does not abort as a whole — the
tags table is still rendered — and it returns 0, not an error. -/
theorem writerefs_failure_counterexample :
    ¬ ((writerefs [brCiFail, tagB] []).2.1 ≠ 0 ∨
       ¬ REv.row "b".toList ∈ (writerefs [brCiFail, tagB] []).1) := by decide

/-- C3 (amended): a failure of symbolic resolution, target lookup, peeling,
or peeled-id lookup jumps to the err label, abandoning every remaining
reference in every class, but writerefs still returns 0 (success) to its
caller; a commit snapshot construction failure only breaks out of the
current class's loop, and the other class is still processed. -/
theorem writerefs_failure_policy :
    (∀ (refs0 : List RefObj) (rp0 : List Char), (writerefs refs0 rp0).2.1 = 0) ∧
    (∀ (j : Nat) (r : RefObj) (rest : List RefObj) (count : Nat) (rp : List Char),
        refStep j r = StepKind.errR →
        innerLoop j (r :: rest) count rp = ⟨[], count, rp, true⟩) ∧
    (∀ (j : Nat) (r : RefObj) (rest : List RefObj) (count : Nat) (rp : List Char),
        refStep j r = StepKind.breakR →
        innerLoop j (r :: rest) count rp = ⟨[], count, rp, false⟩) ∧
    (∀ (refs0 : List RefObj) (rp0 : List Char),
        (innerLoop 0 (sortRefs refs0) 0 rp0).gotoErr = true →
        (writerefs refs0 rp0).1 = (innerLoop 0 (sortRefs refs0) 0 rp0).events) ∧
    (∀ (refs0 : List RefObj) (rp0 : List Char),
        (innerLoop 0 (sortRefs refs0) 0 rp0).gotoErr = false →
        (writerefs refs0 rp0).1 =
          (classLoop 0 (sortRefs refs0) rp0).events ++
          (classLoop 1 (sortRefs refs0)
            (classLoop 0 (sortRefs refs0) rp0).relpath).events) := by
  refine ⟨?_, ?_, ?_, ?_, ?_⟩
  · intro refs0 rp0
    unfold writerefs
    split <;> rfl
  · intro j r rest count rp hstep
    rw [innerLoop, hstep]
  · intro j r rest count rp hstep
    rw [innerLoop, hstep]
  · intro refs0 rp0 hg
    unfold writerefs classLoop
    rw [hg]
    simp
  · intro refs0 rp0 hg
    unfold writerefs classLoop
    rw [hg]
    simp

/-- Witness for C3's amended statement: a failed symbolic resolution at the
head of the loop aborts with the error flag, and after the snapshot failure
of a branch the tags class of a concrete input is still rendered. -/
theorem writerefs_failure_policy_witness :
    innerLoop 0 [brSymFail] 0 [] = ⟨[], 0, [], true⟩ ∧
    (writerefs [brCiFail, tagB] []).1 =
      (classLoop 0 (sortRefs [brCiFail, tagB]) []).events ++
      (classLoop 1 (sortRefs [brCiFail, tagB])
        (classLoop 0 (sortRefs [brCiFail, tagB]) []).relpath).events := by
  refine ⟨writerefs_failure_policy.2.1 0 brSymFail [] 0 [] (by decide),
    writerefs_failure_policy.2.2.2.2 [brCiFail, tagB] [] (by decide)⟩

/-- C4: the commit page's output path is determined by the commit id alone,
and when a file already exists at that path printshowfile returns
immediately without writing, leaving the filesystem unchanged. -/
theorem printshowfile_skip (ctx : Ctx) (fs : FS) (ci : CommitInfoM) :
    (∀ ci2 : CommitInfoM, ci2.oid = ci.oid → commitPagePath ci2 = commitPagePath ci) ∧
    (fsExists fs (commitPagePath ci) = true → printshowfile ctx fs ci = fs) := by
  constructor
  · intro ci2 h
    rw [commitPagePath, commitPagePath, h]
  · intro h
    rw [printshowfile, if_pos h]

/-- Witness for C4: with the page for "ab" already on disk, printshowfile
leaves the filesystem exactly as it was. -/
theorem printshowfile_skip_witness : printshowfile ctx0 fs0 ci0 = fs0 :=
  (printshowfile_skip ctx0 fs0 ci0).2 (by decide)

/-- C8: for a root commit the snapshot carries an empty parent identifier and
its diff old side is the empty (NULL) tree, and the rendered commit page
contains no parent line at all: printcommit reduces to the commit line,
the author block and the message block. -/
theorem root_commit_no_parent (ctx : Ctx) (c : CommitObj) (ci : CommitInfoM)
    (hroot : c.parent = none) (hci : commitinfo_getbyoid c = some ci) :
    ci.parentoid = [] ∧ ci.diffOldTree = none ∧ parentLine ctx ci = [] ∧
    printcommit ctx ci = commitLine ctx ci ++ authorBlock ctx ci ++ msgBlock ci := by
  have hdata : ci = ciData c := by
    unfold commitinfo_getbyoid at hci
    repeat split at hci
    all_goals simp_all
  subst hdata
  have hp : (ciData c).parentoid = [] := by
    simp [ciData, hroot]
  have hd : (ciData c).diffOldTree = none := by
    simp [ciData, hroot]
  have hl : parentLine ctx (ciData c) = [] := by
    simp [parentLine, hp]
  refine ⟨hp, hd, hl, ?_⟩
  rw [printcommit, hl]
  simp

/-- Witness for C8 at a concrete root commit. -/
theorem root_commit_no_parent_witness :
    (ciData rootC).parentoid = [] ∧ (ciData rootC).diffOldTree = none ∧
    parentLine ctx0 (ciData rootC) = [] ∧
    printcommit ctx0 (ciData rootC) =
      commitLine ctx0 (ciData rootC) ++ authorBlock ctx0 (ciData rootC)
      ++ msgBlock (ciData rootC) :=
  root_commit_no_parent ctx0 rootC (ciData rootC) (by decide) rfl

theorem mem_insertBy {le : CommitObj → CommitObj → Bool} {x y : CommitObj}
    {l : List CommitObj} : y ∈ insertBy le x l ↔ y = x ∨ y ∈ l := by
  induction l with
  | nil => simp [insertBy]
  | cons z zs ih =>
    by_cases h : le x z
    · simp [insertBy, h]
    · simp [insertBy, h, ih]
      tauto

theorem pairwise_insertBy {le : CommitObj → CommitObj → Bool}
    (htrans : ∀ a b c, le a b = true → le b c = true → le a c = true)
    (htotal : ∀ a b, le a b = true ∨ le b a = true)
    {x : CommitObj} {l : List CommitObj}
    (h : l.Pairwise (fun a b => le a b = true)) :
    (insertBy le x l).Pairwise (fun a b => le a b = true) := by
  induction l with
  | nil => simp [insertBy]
  | cons z zs ih =>
    by_cases hc : le x z
    · rw [insertBy, if_pos hc]
      refine List.Pairwise.cons ?_ h
      intro y hy
      rcases List.mem_cons.mp hy with rfl | hy
      · exact hc
      · exact htrans x z y hc ((List.pairwise_cons.mp h).1 y hy)
    · rw [insertBy, if_neg hc]
      have hzx : le z x = true := by
        rcases htotal x z with h1 | h1
        · exact absurd h1 hc
        · exact h1
      rcases List.pairwise_cons.mp h with ⟨hz, hzs⟩
      refine List.Pairwise.cons ?_ (ih hzs)
      intro y hy
      rcases mem_insertBy.mp hy with rfl | hy
      · exact hzx
      · exact hz y hy

theorem sortBy_pairwise {le : CommitObj → CommitObj → Bool}
    (htrans : ∀ a b c, le a b = true → le b c = true → le a c = true)
    (htotal : ∀ a b, le a b = true ∨ le b a = true) (l : List CommitObj) :
    (sortBy le l).Pairwise (fun a b => le a b = true) := by
  induction l with
  | nil => simp [sortBy]
  | cons x xs ih => exact pairwise_insertBy htrans htotal ih

theorem insertBy_perm (le : CommitObj → CommitObj → Bool) (x : CommitObj)
    (l : List CommitObj) : (insertBy le x l).Perm (x :: l) := by
  induction l with
  | nil => simp [insertBy]
  | cons z zs ih =>
    by_cases h : le x z
    · simp [insertBy, h]
    · rw [insertBy, if_neg h]
      exact List.Perm.trans (List.Perm.cons z ih) (List.Perm.swap x z zs)

theorem sortBy_perm (le : CommitObj → CommitObj → Bool) (l : List CommitObj) :
    (sortBy le l).Perm l := by
  induction l with
  | nil => simp [sortBy]
  | cons x xs ih =>
    exact (insertBy_perm le x (sortBy le xs)).trans (List.Perm.cons x ih)

theorem newerLe_trans (a b c : CommitObj) (h1 : newerLe a b = true)
    (h2 : newerLe b c = true) : newerLe a c = true := by
  simp [newerLe] at h1 h2 ⊢
  omega

theorem newerLe_total (a b : CommitObj) : newerLe a b = true ∨ newerLe b a = true := by
  simp [newerLe]
  omega

theorem writeatomEntriesLoop_clean (ctx : Ctx) (m : Nat) (l : List CommitObj)
    (h : ∀ c ∈ l, commitinfo_getbyoid c = some (ciData c)) :
    writeatomEntriesLoop ctx m l =
      (l.take m).map (fun c => printcommitatom ctx (ciData c)) := by
  induction l generalizing m with
  | nil => cases m <;> rfl
  | cons c rest ih =>
    cases m with
    | zero => rfl
    | succ m =>
      rw [writeatomEntriesLoop, h c (by simp)]
      rw [List.take_succ_cons, List.map_cons]
      rw [ih m (fun x hx => h x (by simp [hx]))]

/-- C9: writeatom walks history from the repository head in
commit-time-descending first-parent-only order and emits at most 100
entries, one entry per visited commit. -/
theorem writeatom_spec (ctx : Ctx) (repo : Repo)
    (h : ∀ c ∈ firstParentChain repo.head, commitinfo_getbyoid c = some (ciData c)) :
    writeatomEntries ctx repo =
      ((revwalkModel repo.head).take 100).map (fun c => printcommitatom ctx (ciData c)) ∧
    (writeatomEntries ctx repo).length ≤ 100 ∧
    (∀ c ∈ revwalkModel repo.head, c ∈ firstParentChain repo.head) ∧
    (revwalkModel repo.head).Pairwise (fun a b => b.data.ctime ≤ a.data.ctime) := by
  have hmem : ∀ c ∈ revwalkModel repo.head, c ∈ firstParentChain repo.head :=
    fun c hc => (sortBy_perm newerLe (firstParentChain repo.head)).mem_iff.mp hc
  have hwalk : ∀ c ∈ revwalkModel repo.head, commitinfo_getbyoid c = some (ciData c) :=
    fun c hc => h c (hmem c hc)
  have he : writeatomEntries ctx repo =
      ((revwalkModel repo.head).take 100).map (fun c => printcommitatom ctx (ciData c)) :=
    writeatomEntriesLoop_clean ctx 100 (revwalkModel repo.head) hwalk
  refine ⟨he, ?_, hmem, ?_⟩
  · rw [he]
    simp [List.length_take]
  · refine ((sortBy_pairwise newerLe_trans newerLe_total _).imp ?_)
    intro a b hab
    simpa [newerLe] using hab

/-- Witness for C9 at a one-commit repository. -/
theorem writeatom_spec_witness :
    writeatomEntries ctx0 repo0 =
      ((revwalkModel repo0.head).take 100).map (fun c => printcommitatom ctx0 (ciData c)) :=
  (writeatom_spec ctx0 repo0 (by decide)).1

theorem printcommitatom_relpath_eq (ctx : Ctx) (rp1 rp2 : List Char)
    (ci : CommitInfoM) :
    printcommitatom { ctx with relpath := rp1 } ci =
      printcommitatom { ctx with relpath := rp2 } ci := rfl

theorem writeatomEntriesLoop_relpath (ctx : Ctx) (rp1 rp2 : List Char)
    (m : Nat) (l : List CommitObj) :
    writeatomEntriesLoop { ctx with relpath := rp1 } m l =
      writeatomEntriesLoop { ctx with relpath := rp2 } m l := by
  induction l generalizing m with
  | nil => cases m <;> rfl
  | cons c rest ih =>
    cases m with
    | zero => rfl
    | succ m =>
      cases hci : commitinfo_getbyoid c with
      | none => simp only [writeatomEntriesLoop, hci]
      | some ci =>
        simp only [writeatomEntriesLoop, hci]
        rw [printcommitatom_relpath_eq ctx rp1 rp2 ci, ih m]

/-- C10: the bytes writeatom writes are identical for any two values of the
process-wide relative-path cursor at call time: the feed never reads
relpath. -/
theorem writeatom_relpath_independent (ctx : Ctx) (rp1 rp2 : List Char)
    (repo : Repo) :
    writeatom { ctx with relpath := rp1 } repo =
      writeatom { ctx with relpath := rp2 } repo := by
  unfold writeatom writeatomEntries
  rw [writeatomEntriesLoop_relpath ctx rp1 rp2]

theorem rowsOf_append (a b : List REv) : rowsOf (a ++ b) = rowsOf a ++ rowsOf b := by
  simp [rowsOf]

theorem classLoop_relpath (j : Nat) (refs : List RefObj) (rp : List Char) :
    (classLoop j refs rp).relpath =
      if rowsOf (classLoop j refs rp).events = [] then rp else "../".toList := by
  unfold classLoop
  by_cases hg : (innerLoop j refs 0 rp).gotoErr
  · rw [if_pos hg]
    simpa using innerLoop_relpath j refs 0 rp
  · rw [if_neg hg]
    have hrf : rowsOf ((innerLoop j refs 0 rp).events ++
        (if (innerLoop j refs 0 rp).count ≠ 0 then [REv.footer j] else [])) =
        rowsOf (innerLoop j refs 0 rp).events := by
      rw [rowsOf_append]
      by_cases hc : (innerLoop j refs 0 rp).count ≠ 0 <;> simp [hc, rowsOf]
    show (innerLoop j refs 0 rp).relpath =
      if rowsOf ((innerLoop j refs 0 rp).events ++
        (if (innerLoop j refs 0 rp).count ≠ 0 then [REv.footer j] else [])) = []
      then rp else "../".toList
    rw [hrf]
    exact innerLoop_relpath j refs 0 rp

theorem writerefs_relpath (refs0 : List RefObj) (rp0 : List Char) :
    (writerefs refs0 rp0).2.2 =
      if rowsOf (writerefs refs0 rp0).1 = [] then rp0 else "../".toList := by
  unfold writerefs
  by_cases hg : (classLoop 0 (sortRefs refs0) rp0).gotoErr
  · rw [if_pos hg]
    simpa using classLoop_relpath 0 (sortRefs refs0) rp0
  · rw [if_neg hg]
    show (classLoop 1 (sortRefs refs0) (classLoop 0 (sortRefs refs0) rp0).relpath).relpath =
      if rowsOf ((classLoop 0 (sortRefs refs0) rp0).events ++
        (classLoop 1 (sortRefs refs0) (classLoop 0 (sortRefs refs0) rp0).relpath).events)
        = [] then rp0 else "../".toList
    rw [rowsOf_append]
    by_cases hr1 : rowsOf (classLoop 1 (sortRefs refs0)
        (classLoop 0 (sortRefs refs0) rp0).relpath).events = []
    · rw [classLoop_relpath 1 (sortRefs refs0) (classLoop 0 (sortRefs refs0) rp0).relpath,
        if_pos hr1]
      by_cases hr0 : rowsOf (classLoop 0 (sortRefs refs0) rp0).events = []
      · rw [if_pos (show rowsOf (classLoop 0 (sortRefs refs0) rp0).events ++
            rowsOf (classLoop 1 (sortRefs refs0)
              (classLoop 0 (sortRefs refs0) rp0).relpath).events = [] by simp [hr0, hr1])]
        rw [classLoop_relpath 0 (sortRefs refs0) rp0, if_pos hr0]
      · rw [if_neg (show ¬ (rowsOf (classLoop 0 (sortRefs refs0) rp0).events ++
            rowsOf (classLoop 1 (sortRefs refs0)
              (classLoop 0 (sortRefs refs0) rp0).relpath).events = []) by simp [hr0])]
        rw [classLoop_relpath 0 (sortRefs refs0) rp0, if_neg hr0]
    · rw [classLoop_relpath 1 (sortRefs refs0) (classLoop 0 (sortRefs refs0) rp0).relpath,
        if_neg hr1,
        if_neg (show ¬ (rowsOf (classLoop 0 (sortRefs refs0) rp0).events ++
          rowsOf (classLoop 1 (sortRefs refs0)
            (classLoop 0 (sortRefs refs0) rp0).relpath).events = []) by simp [hr1])]

/-- C1 counterexample: after writerefs returns on a repository with one
healthy branch, the relative-path cursor is "../", not the empty prefix. -/
theorem relpath_restore_counterexample : ¬ ((writerefs [brA] []).2.2 = []) := by
  decide

/-- C1 (amended): writelog restores the empty relpath before returning on
every exit path, and writeblob sets it to empty on success while leaving it
untouched on its early mkdirp-failure return; but writerefs does not
restore the cursor: it returns with relpath equal to "../" whenever it
rendered at least one reference row, and leaves relpath unchanged
otherwise. -/
theorem relpath_restore (ctx : Ctx) (summarylen : Nat) (walk : List CommitObj)
    (fs : FS) (rp0 fpath filename content : List Char) (filesize : Nat)
    (isBinary : Bool) (refs0 : List RefObj) :
    (writelog ctx summarylen walk fs).2.2 = [] ∧
    (writeblob ctx fs rp0 true fpath filename filesize isBinary content).2.2 = [] ∧
    (writeblob ctx fs rp0 false fpath filename filesize isBinary content).2.2 = rp0 ∧
    (writerefs refs0 rp0).2.2 =
      (if rowsOf (writerefs refs0 rp0).1 = [] then rp0 else "../".toList) := by
  exact ⟨rfl, rfl, rfl, writerefs_relpath refs0 rp0⟩

end Stagit
